import Mathlib

/-!
Verification of the multi-byte text-encoding core (`src/nvim/mbyte.c`).

Byte buffers are modelled as `List Nat` with each entry a byte value
(`< 256`); reading past the end of the list with `List.getD _ 0` yields 0,
which models the NUL terminator that follows every C string in this code.
C's bitwise operators on non-negative ints are `&&&`, `>>>`, `<<<` on `Nat`.
Functions that advance a pointer are modelled as returning the number of
bytes consumed.
-/

set_option maxRecDepth 20000

/-- Lookup table `utf8len_tab`: length in bytes of a UTF-8 character from its
first byte; illegal first bytes and NUL get 1. -/
def utf8len_tab : List Nat :=
  [1,1,1,1,1,1,1,1,1,1,1,1,1,1,1,1,1,1,1,1,1,1,1,1,1,1,1,1,1,1,1,1,
   1,1,1,1,1,1,1,1,1,1,1,1,1,1,1,1,1,1,1,1,1,1,1,1,1,1,1,1,1,1,1,1,
   1,1,1,1,1,1,1,1,1,1,1,1,1,1,1,1,1,1,1,1,1,1,1,1,1,1,1,1,1,1,1,1,
   1,1,1,1,1,1,1,1,1,1,1,1,1,1,1,1,1,1,1,1,1,1,1,1,1,1,1,1,1,1,1,1,
   1,1,1,1,1,1,1,1,1,1,1,1,1,1,1,1,1,1,1,1,1,1,1,1,1,1,1,1,1,1,1,1,
   1,1,1,1,1,1,1,1,1,1,1,1,1,1,1,1,1,1,1,1,1,1,1,1,1,1,1,1,1,1,1,1,
   2,2,2,2,2,2,2,2,2,2,2,2,2,2,2,2,2,2,2,2,2,2,2,2,2,2,2,2,2,2,2,2,
   3,3,3,3,3,3,3,3,3,3,3,3,3,3,3,3,4,4,4,4,4,4,4,4,5,5,5,5,6,6,1,1]

/-- Lookup table `utf8len_tab_zero`: like `utf8len_tab` but 0 for illegal
lead bytes. -/
def utf8len_tab_zero : List Nat :=
  [1,1,1,1,1,1,1,1,1,1,1,1,1,1,1,1,1,1,1,1,1,1,1,1,1,1,1,1,1,1,1,1,
   1,1,1,1,1,1,1,1,1,1,1,1,1,1,1,1,1,1,1,1,1,1,1,1,1,1,1,1,1,1,1,1,
   1,1,1,1,1,1,1,1,1,1,1,1,1,1,1,1,1,1,1,1,1,1,1,1,1,1,1,1,1,1,1,1,
   1,1,1,1,1,1,1,1,1,1,1,1,1,1,1,1,1,1,1,1,1,1,1,1,1,1,1,1,1,1,1,1,
   0,0,0,0,0,0,0,0,0,0,0,0,0,0,0,0,0,0,0,0,0,0,0,0,0,0,0,0,0,0,0,0,
   0,0,0,0,0,0,0,0,0,0,0,0,0,0,0,0,0,0,0,0,0,0,0,0,0,0,0,0,0,0,0,0,
   2,2,2,2,2,2,2,2,2,2,2,2,2,2,2,2,2,2,2,2,2,2,2,2,2,2,2,2,2,2,2,2,
   3,3,3,3,3,3,3,3,3,3,3,3,3,3,3,3,4,4,4,4,4,4,4,4,5,5,5,5,6,6,0,0]

/-- Function `utf_ptr2char`: convert a UTF-8 byte sequence to a wide character;
on an illegal or truncated sequence the first byte is returned. -/
def utf_ptr2char (p : List Nat) : Nat :=
  if p.getD 0 0 < 0x80 then p.getD 0 0
  else if 1 < utf8len_tab_zero.getD (p.getD 0 0) 0 ∧ p.getD 1 0 &&& 0xC0 = 0x80 then
    if utf8len_tab_zero.getD (p.getD 0 0) 0 = 2 then
      ((p.getD 0 0 &&& 0x1F) <<< 6) + (p.getD 1 0 &&& 0x3F)
    else if p.getD 2 0 &&& 0xC0 = 0x80 then
      if utf8len_tab_zero.getD (p.getD 0 0) 0 = 3 then
        ((p.getD 0 0 &&& 0x0F) <<< 12) + ((p.getD 1 0 &&& 0x3F) <<< 6)
          + (p.getD 2 0 &&& 0x3F)
      else if p.getD 3 0 &&& 0xC0 = 0x80 then
        if utf8len_tab_zero.getD (p.getD 0 0) 0 = 4 then
          ((p.getD 0 0 &&& 0x07) <<< 18) + ((p.getD 1 0 &&& 0x3F) <<< 12)
            + ((p.getD 2 0 &&& 0x3F) <<< 6) + (p.getD 3 0 &&& 0x3F)
        else if p.getD 4 0 &&& 0xC0 = 0x80 then
          if utf8len_tab_zero.getD (p.getD 0 0) 0 = 5 then
            ((p.getD 0 0 &&& 0x03) <<< 24) + ((p.getD 1 0 &&& 0x3F) <<< 18)
              + ((p.getD 2 0 &&& 0x3F) <<< 12) + ((p.getD 3 0 &&& 0x3F) <<< 6)
              + (p.getD 4 0 &&& 0x3F)
          else if p.getD 5 0 &&& 0xC0 = 0x80 ∧ utf8len_tab_zero.getD (p.getD 0 0) 0 = 6 then
            ((p.getD 0 0 &&& 0x01) <<< 30) + ((p.getD 1 0 &&& 0x3F) <<< 24)
              + ((p.getD 2 0 &&& 0x3F) <<< 18) + ((p.getD 3 0 &&& 0x3F) <<< 12)
              + ((p.getD 4 0 &&& 0x3F) <<< 6) + (p.getD 5 0 &&& 0x3F)
          else p.getD 0 0
        else p.getD 0 0
      else p.getD 0 0
    else p.getD 0 0
  else p.getD 0 0

/-- Function `utf_ptr2len`: length of the UTF-8 byte sequence at `p`; 0 for "",
1 for an illegal sequence. -/
def utf_ptr2len (p : List Nat) : Nat :=
  if p.getD 0 0 = 0 then 0
  else if (List.range (utf8len_tab.getD (p.getD 0 0) 0 - 1)).all
      (fun i => p.getD (i + 1) 0 &&& 0xC0 == 0x80) then
    utf8len_tab.getD (p.getD 0 0) 0
  else 1

/-- Function `utf_ptr2len_len`: length of the UTF-8 byte sequence `p[size]`;
1 for "" and for an illegal sequence, a number greater than `size` for an
incomplete sequence, never 0. -/
def utf_ptr2len_len (p : List Nat) (size : Nat) : Nat :=
  if utf8len_tab.getD (p.getD 0 0) 0 = 1 then 1
  else if (List.range ((if size < utf8len_tab.getD (p.getD 0 0) 0 then size
      else utf8len_tab.getD (p.getD 0 0) 0) - 1)).all
      (fun i => p.getD (i + 1) 0 &&& 0xC0 == 0x80) then
    utf8len_tab.getD (p.getD 0 0) 0
  else 1

/-- Function `utf_char2len`: number of bytes the UTF-8 encoding of character `c`
takes. -/
def utf_char2len (c : Nat) : Nat :=
  if c < 0x80 then 1
  else if c < 0x800 then 2
  else if c < 0x10000 then 3
  else if c < 0x200000 then 4
  else if c < 0x4000000 then 5
  else 6

/-- Function `utf_char2bytes`: convert character `c` to its UTF-8 byte string
(the C function fills a buffer and returns the count; here the filled
bytes are returned, so the count is the list length). -/
def utf_char2bytes (c : Nat) : List Nat :=
  if c < 0x80 then [c]
  else if c < 0x800 then
    [0xC0 + (c >>> 6), 0x80 + (c &&& 0x3F)]
  else if c < 0x10000 then
    [0xE0 + (c >>> 12), 0x80 + ((c >>> 6) &&& 0x3F), 0x80 + (c &&& 0x3F)]
  else if c < 0x200000 then
    [0xF0 + (c >>> 18), 0x80 + ((c >>> 12) &&& 0x3F), 0x80 + ((c >>> 6) &&& 0x3F),
     0x80 + (c &&& 0x3F)]
  else if c < 0x4000000 then
    [0xF8 + (c >>> 24), 0x80 + ((c >>> 18) &&& 0x3F), 0x80 + ((c >>> 12) &&& 0x3F),
     0x80 + ((c >>> 6) &&& 0x3F), 0x80 + (c &&& 0x3F)]
  else
    [0xFC + (c >>> 30), 0x80 + ((c >>> 24) &&& 0x3F), 0x80 + ((c >>> 18) &&& 0x3F),
     0x80 + ((c >>> 12) &&& 0x3F), 0x80 + ((c >>> 6) &&& 0x3F), 0x80 + (c &&& 0x3F)]

/-- Function `utf_safe_read_char_adv`: safely decode one character from the first `n`
bytes of buffer `s`.  Result is the returned value (−1 means illegal or
incomplete) paired with the number of bytes consumed (the C function
advances `*s` and decreases `*n` by exactly that amount). -/
def utf_safe_read_char_adv (s : List Nat) (n : Nat) : Int × Nat :=
  if n = 0 then (0, 0)
  else if utf8len_tab_zero.getD (s.getD 0 0) 0 = 1 then
    ((s.getD 0 0 : Int), 1)
  else if utf8len_tab_zero.getD (s.getD 0 0) 0 ≤ n then
    if utf_ptr2char s ≠ s.getD 0 0 ∨ (utf_ptr2char s = 0xC3 ∧ s.getD 1 0 = 0x83) then
      ((utf_ptr2char s : Int), utf8len_tab_zero.getD (s.getD 0 0) 0)
    else (-1, 0)
  else (-1, 0)

example : utf_char2bytes 0x20AC = [0xE2, 0x82, 0xAC] := by decide
example : utf_ptr2char [0xE2, 0x82, 0xAC] = 0x20AC := by decide
example : utf_ptr2len [0xE2, 0x82, 0xAC] = 3 := by decide
example : utf_ptr2len [0] = 0 := by decide
example : utf_char2bytes 0 = [0] := by decide
example : utf_safe_read_char_adv [0xC3, 0x83] 2 = (0xC3, 2) := by decide
example : utf_safe_read_char_adv [0x80] 1 = (-1, 0) := by decide
example : utf_safe_read_char_adv [0xC2, 0xA9] 2 = (0xA9, 2) := by decide
example : utf_safe_read_char_adv [0xC2] 1 = (-1, 0) := by decide
example : utf_ptr2len_len [0xE2, 0x82] 2 = 3 := by decide
example : utf_ptr2char [0x41] = 0x41 := by decide
example : utf_ptr2char [0xC3, 0x83] = 0xC3 := by decide
example : utf_char2bytes 0x10FFFF = [0xF4, 0x8F, 0xBF, 0xBF] := by decide
example : utf_ptr2char [0xF4, 0x8F, 0xBF, 0xBF] = 0x10FFFF := by decide

theorem and3F_eq_mod (x : Nat) : x &&& 0x3F = x % 64 := Nat.and_pow_two_sub_one_eq_mod x 6

theorem shiftR_eq (x n : Nat) : x >>> n = x / 2 ^ n := Nat.shiftRight_eq_div_pow x n

theorem shiftL_eq (x n : Nat) : x <<< n = x * 2 ^ n := Nat.shiftLeft_eq x n

theorem tab1_lt80 : ∀ b < 0x80, utf8len_tab.getD b 0 = 1 := by decide

theorem tabZ_len2 : ∀ b < 0xE0, 0xC0 ≤ b → utf8len_tab_zero.getD b 0 = 2 := by decide

theorem tab_len2 : ∀ b < 0xE0, 0xC0 ≤ b → utf8len_tab.getD b 0 = 2 := by decide

theorem tabZ_len3 : ∀ b < 0xF0, 0xE0 ≤ b → utf8len_tab_zero.getD b 0 = 3 := by decide

theorem tab_len3 : ∀ b < 0xF0, 0xE0 ≤ b → utf8len_tab.getD b 0 = 3 := by decide

theorem tabZ_len4 : ∀ b < 0xF8, 0xF0 ≤ b → utf8len_tab_zero.getD b 0 = 4 := by decide

theorem tab_len4 : ∀ b < 0xF8, 0xF0 ≤ b → utf8len_tab.getD b 0 = 4 := by decide

theorem contOf (m : Nat) (h : m < 64) : (0x80 + m) &&& 0xC0 = 0x80 := by
  have : ∀ x < 64, (0x80 + x) &&& 0xC0 = 0x80 := by decide
  exact this m h

theorem and1F_eq_mod (x : Nat) : x &&& 0x1F = x % 32 := Nat.and_pow_two_sub_one_eq_mod x 5

theorem and0F_eq_mod (x : Nat) : x &&& 0x0F = x % 16 := Nat.and_pow_two_sub_one_eq_mod x 4

theorem and07_eq_mod (x : Nat) : x &&& 0x07 = x % 8 := Nat.and_pow_two_sub_one_eq_mod x 3

theorem roundtrip2 (c : Nat) (h1 : 0x80 ≤ c) (h2 : c < 0x800) :
    utf_char2bytes c = [0xC0 + c / 64, 0x80 + c % 64] ∧
    utf_ptr2char (utf_char2bytes c) = c ∧
    utf_ptr2len (utf_char2bytes c) = 2 := by
  have henc : utf_char2bytes c = [0xC0 + c / 64, 0x80 + c % 64] := by
    unfold utf_char2bytes
    rw [if_neg (by omega), if_pos h2, shiftR_eq, and3F_eq_mod]
    norm_num
  have ha : c / 64 < 32 := by omega
  have ha2 : 2 ≤ c / 64 := by omega
  have hb : c % 64 < 64 := by omega
  have hg0 : [0xC0 + c / 64, 0x80 + c % 64].getD 0 0 = 0xC0 + c / 64 := rfl
  have hg1 : [0xC0 + c / 64, 0x80 + c % 64].getD 1 0 = 0x80 + c % 64 := rfl
  have htz : utf8len_tab_zero.getD (0xC0 + c / 64) 0 = 2 := tabZ_len2 _ (by omega) (by omega)
  have ht : utf8len_tab.getD (0xC0 + c / 64) 0 = 2 := tab_len2 _ (by omega) (by omega)
  have hcont : (0x80 + c % 64) &&& 0xC0 = 0x80 := contOf _ hb
  refine ⟨henc, ?_, ?_⟩
  · rw [henc]
    unfold utf_ptr2char
    rw [hg0, hg1, htz]
    rw [if_neg (by omega), if_pos ⟨by omega, hcont⟩, if_pos rfl]
    rw [and1F_eq_mod, and3F_eq_mod, shiftL_eq]
    omega
  · rw [henc]
    unfold utf_ptr2len
    rw [hg0, ht, if_neg (by omega)]
    norm_num [show List.range 1 = [0] from rfl, List.all_cons, List.all_nil, List.getD_cons_succ,
      List.getD_cons_zero, hcont]

theorem roundtrip1 (c : Nat) (h0 : 0 < c) (h : c < 0x80) :
    utf_char2bytes c = [c] ∧
    utf_ptr2char (utf_char2bytes c) = c ∧
    utf_ptr2len (utf_char2bytes c) = 1 := by
  have henc : utf_char2bytes c = [c] := by
    unfold utf_char2bytes
    rw [if_pos h]
  refine ⟨henc, ?_, ?_⟩
  · rw [henc]
    unfold utf_ptr2char
    rw [show [c].getD 0 0 = c from rfl, if_pos h]
  · rw [henc]
    unfold utf_ptr2len
    rw [show [c].getD 0 0 = c from rfl, if_neg (by omega), tab1_lt80 c h]
    norm_num

theorem roundtrip3 (c : Nat) (h1 : 0x800 ≤ c) (h2 : c < 0x10000) :
    utf_char2bytes c = [0xE0 + c / 4096, 0x80 + c / 64 % 64, 0x80 + c % 64] ∧
    utf_ptr2char (utf_char2bytes c) = c ∧
    utf_ptr2len (utf_char2bytes c) = 3 := by
  have henc : utf_char2bytes c = [0xE0 + c / 4096, 0x80 + c / 64 % 64, 0x80 + c % 64] := by
    unfold utf_char2bytes
    rw [if_neg (by omega), if_neg (by omega), if_pos h2, shiftR_eq, shiftR_eq,
      and3F_eq_mod, and3F_eq_mod]
    norm_num
  have ha : c / 4096 < 16 := by omega
  have hg0 : [0xE0 + c / 4096, 0x80 + c / 64 % 64, 0x80 + c % 64].getD 0 0
      = 0xE0 + c / 4096 := rfl
  have hg1 : [0xE0 + c / 4096, 0x80 + c / 64 % 64, 0x80 + c % 64].getD 1 0
      = 0x80 + c / 64 % 64 := rfl
  have hg2 : [0xE0 + c / 4096, 0x80 + c / 64 % 64, 0x80 + c % 64].getD 2 0
      = 0x80 + c % 64 := rfl
  have htz : utf8len_tab_zero.getD (0xE0 + c / 4096) 0 = 3 := tabZ_len3 _ (by omega) (by omega)
  have ht : utf8len_tab.getD (0xE0 + c / 4096) 0 = 3 := tab_len3 _ (by omega) (by omega)
  have hcont1 : (0x80 + c / 64 % 64) &&& 0xC0 = 0x80 := contOf _ (by omega)
  have hcont2 : (0x80 + c % 64) &&& 0xC0 = 0x80 := contOf _ (by omega)
  refine ⟨henc, ?_, ?_⟩
  · rw [henc]
    unfold utf_ptr2char
    rw [hg0, hg1, hg2, htz]
    rw [if_neg (by omega), if_pos ⟨by omega, hcont1⟩, if_neg (by omega), if_pos hcont2,
      if_pos rfl]
    rw [and0F_eq_mod, and3F_eq_mod, and3F_eq_mod, shiftL_eq, shiftL_eq]
    norm_num
    omega
  · rw [henc]
    unfold utf_ptr2len
    rw [hg0, ht, if_neg (by omega)]
    norm_num [show List.range 2 = [0, 1] from rfl, List.all_cons, List.all_nil,
      List.getD_cons_succ, List.getD_cons_zero, hcont1, hcont2]

theorem roundtrip4 (c : Nat) (h1 : 0x10000 ≤ c) (h2 : c < 0x200000) :
    utf_char2bytes c
      = [0xF0 + c / 262144, 0x80 + c / 4096 % 64, 0x80 + c / 64 % 64, 0x80 + c % 64] ∧
    utf_ptr2char (utf_char2bytes c) = c ∧
    utf_ptr2len (utf_char2bytes c) = 4 := by
  have henc : utf_char2bytes c
      = [0xF0 + c / 262144, 0x80 + c / 4096 % 64, 0x80 + c / 64 % 64, 0x80 + c % 64] := by
    unfold utf_char2bytes
    rw [if_neg (by omega), if_neg (by omega), if_neg (by omega), if_pos h2,
      shiftR_eq, shiftR_eq, shiftR_eq, and3F_eq_mod, and3F_eq_mod, and3F_eq_mod]
    norm_num
  have ha : c / 262144 < 8 := by omega
  have hg0 : [0xF0 + c / 262144, 0x80 + c / 4096 % 64, 0x80 + c / 64 % 64,
      0x80 + c % 64].getD 0 0 = 0xF0 + c / 262144 := rfl
  have hg1 : [0xF0 + c / 262144, 0x80 + c / 4096 % 64, 0x80 + c / 64 % 64,
      0x80 + c % 64].getD 1 0 = 0x80 + c / 4096 % 64 := rfl
  have hg2 : [0xF0 + c / 262144, 0x80 + c / 4096 % 64, 0x80 + c / 64 % 64,
      0x80 + c % 64].getD 2 0 = 0x80 + c / 64 % 64 := rfl
  have hg3 : [0xF0 + c / 262144, 0x80 + c / 4096 % 64, 0x80 + c / 64 % 64,
      0x80 + c % 64].getD 3 0 = 0x80 + c % 64 := rfl
  have htz : utf8len_tab_zero.getD (0xF0 + c / 262144) 0 = 4 := tabZ_len4 _ (by omega) (by omega)
  have ht : utf8len_tab.getD (0xF0 + c / 262144) 0 = 4 := tab_len4 _ (by omega) (by omega)
  have hcont1 : (0x80 + c / 4096 % 64) &&& 0xC0 = 0x80 := contOf _ (by omega)
  have hcont2 : (0x80 + c / 64 % 64) &&& 0xC0 = 0x80 := contOf _ (by omega)
  have hcont3 : (0x80 + c % 64) &&& 0xC0 = 0x80 := contOf _ (by omega)
  refine ⟨henc, ?_, ?_⟩
  · rw [henc]
    unfold utf_ptr2char
    rw [hg0, hg1, hg2, hg3, htz]
    rw [if_neg (by omega), if_pos ⟨by omega, hcont1⟩, if_neg (by omega), if_pos hcont2,
      if_neg (by omega), if_pos hcont3, if_pos rfl]
    rw [and07_eq_mod, and3F_eq_mod, and3F_eq_mod, and3F_eq_mod, shiftL_eq, shiftL_eq,
      shiftL_eq]
    norm_num
    omega
  · rw [henc]
    unfold utf_ptr2len
    rw [hg0, ht, if_neg (by omega)]
    norm_num [show List.range 3 = [0, 1, 2] from rfl, List.all_cons, List.all_nil,
      List.getD_cons_succ, List.getD_cons_zero, hcont1, hcont2, hcont3]

/-- C1 (amended): for every codepoint `c` with `1 ≤ c ≤ 0x10FFFF` outside the
surrogate range, encoding with `utf_char2bytes` and decoding with
`utf_ptr2char` yields `c` back, and `utf_ptr2len` on the encoded sequence
returns exactly the number of bytes produced.  (The original claim also
included `c = 0`, where `utf_ptr2len` returns 0, not 1.) -/
theorem C1_roundtrip (c : Nat) (h0 : 1 ≤ c) (hle : c ≤ 0x10FFFF)
    (hs : ¬ (0xD800 ≤ c ∧ c ≤ 0xDFFF)) :
    utf_ptr2char (utf_char2bytes c) = c ∧
    utf_ptr2len (utf_char2bytes c) = (utf_char2bytes c).length := by
  rcases lt_or_le c 0x80 with h | h
  · obtain ⟨he, h1, h2⟩ := roundtrip1 c h0 h
    exact ⟨h1, by rw [h2, he]; rfl⟩
  rcases lt_or_le c 0x800 with h8 | h8
  · obtain ⟨he, h1, h2⟩ := roundtrip2 c h h8
    exact ⟨h1, by rw [h2, he]; rfl⟩
  rcases lt_or_le c 0x10000 with h16 | h16
  · obtain ⟨he, h1, h2⟩ := roundtrip3 c h8 h16
    exact ⟨h1, by rw [h2, he]; rfl⟩
  · obtain ⟨he, h1, h2⟩ := roundtrip4 c h16 (by omega)
    exact ⟨h1, by rw [h2, he]; rfl⟩

/-- C1 counterexample: the codepoint 0 lies in the claimed range
`0..0x10FFFF` outside the surrogates, `utf_char2bytes 0` produces one byte,
but `utf_ptr2len` on that sequence returns 0, not 1. -/
theorem C1_counterexample :
    (0:Nat) ≤ 0x10FFFF ∧ ¬ (0xD800 ≤ (0:Nat) ∧ (0:Nat) ≤ 0xDFFF) ∧
    (utf_char2bytes 0).length = 1 ∧
    utf_ptr2len (utf_char2bytes 0) ≠ (utf_char2bytes 0).length := by decide

/-- C1 witness: the Euro sign scenario, by the round-trip theorem at 0x20AC,
whose encoding is the bytes E2 82 AC. -/
theorem C1_witness :
    utf_ptr2char (utf_char2bytes 0x20AC) = 0x20AC ∧
    utf_ptr2len (utf_char2bytes 0x20AC) = (utf_char2bytes 0x20AC).length ∧
    utf_char2bytes 0x20AC = [0xE2, 0x82, 0xAC] := by
  have h := C1_roundtrip 0x20AC (by decide) (by decide) (by decide)
  exact ⟨h.1, h.2, by decide⟩

theorem tab_len5 : ∀ b < 0xFC, 0xF8 ≤ b → utf8len_tab.getD b 0 = 5 := by decide

theorem tab_len6 : ∀ b < 0xFE, 0xFC ≤ b → utf8len_tab.getD b 0 = 6 := by decide

/-- C6: for every codepoint `c ≤ 0x7FFFFFFF`, the number of bytes produced by
`utf_char2bytes` equals the length `utf8len_tab` assigns to the first
produced byte (shortest form), equals `utf_char2len c` (whose thresholds are
0x80, 0x800, 0x10000, 0x200000, 0x4000000), and is at most 6. -/
theorem C6_shortest (c : Nat) (h : c ≤ 0x7FFFFFFF) :
    (utf_char2bytes c).length = utf8len_tab.getD ((utf_char2bytes c).getD 0 0) 0 ∧
    (utf_char2bytes c).length = utf_char2len c ∧
    (utf_char2bytes c).length ≤ 6 := by
  rcases lt_or_le c 0x80 with h1 | h1
  · have he : utf_char2bytes c = [c] := by
      unfold utf_char2bytes
      rw [if_pos h1]
    rw [he]
    refine ⟨by rw [show [c].getD 0 0 = c from rfl, tab1_lt80 c h1]; rfl, ?_, by norm_num⟩
    unfold utf_char2len
    rw [if_pos h1]
    rfl
  rcases lt_or_le c 0x800 with h2 | h2
  · obtain ⟨he, -, -⟩ := roundtrip2 c h1 h2
    rw [he]
    refine ⟨?_, ?_, by norm_num⟩
    · rw [show [0xC0 + c / 64, 0x80 + c % 64].getD 0 0 = 0xC0 + c / 64 from rfl,
        tab_len2 _ (by omega) (by omega)]
      rfl
    · unfold utf_char2len
      rw [if_neg (by omega), if_pos h2]
      rfl
  rcases lt_or_le c 0x10000 with h3 | h3
  · obtain ⟨he, -, -⟩ := roundtrip3 c h2 h3
    rw [he]
    refine ⟨?_, ?_, by norm_num⟩
    · rw [show [0xE0 + c / 4096, 0x80 + c / 64 % 64, 0x80 + c % 64].getD 0 0
          = 0xE0 + c / 4096 from rfl, tab_len3 _ (by omega) (by omega)]
      rfl
    · unfold utf_char2len
      rw [if_neg (by omega), if_neg (by omega), if_pos h3]
      rfl
  rcases lt_or_le c 0x200000 with h4 | h4
  · obtain ⟨he, -, -⟩ := roundtrip4 c h3 h4
    rw [he]
    refine ⟨?_, ?_, by norm_num⟩
    · rw [show [0xF0 + c / 262144, 0x80 + c / 4096 % 64, 0x80 + c / 64 % 64,
          0x80 + c % 64].getD 0 0 = 0xF0 + c / 262144 from rfl,
        tab_len4 _ (by omega) (by omega)]
      rfl
    · unfold utf_char2len
      rw [if_neg (by omega), if_neg (by omega), if_neg (by omega), if_pos h4]
      rfl
  rcases lt_or_le c 0x4000000 with h5 | h5
  · have hs : c >>> 24 < 4 := by
      rw [shiftR_eq]
      omega
    have he : utf_char2bytes c = [0xF8 + (c >>> 24), 0x80 + ((c >>> 18) &&& 0x3F),
        0x80 + ((c >>> 12) &&& 0x3F), 0x80 + ((c >>> 6) &&& 0x3F), 0x80 + (c &&& 0x3F)] := by
      unfold utf_char2bytes
      rw [if_neg (by omega), if_neg (by omega), if_neg (by omega), if_neg (by omega),
        if_pos h5]
    rw [he]
    refine ⟨?_, ?_, by norm_num⟩
    · rw [show [0xF8 + (c >>> 24), 0x80 + ((c >>> 18) &&& 0x3F), 0x80 + ((c >>> 12) &&& 0x3F),
          0x80 + ((c >>> 6) &&& 0x3F), 0x80 + (c &&& 0x3F)].getD 0 0
          = 0xF8 + (c >>> 24) from rfl, tab_len5 _ (by omega) (by omega)]
      rfl
    · unfold utf_char2len
      rw [if_neg (by omega), if_neg (by omega), if_neg (by omega), if_neg (by omega),
        if_pos h5]
      rfl
  · have hs : c >>> 30 < 2 := by
      rw [shiftR_eq]
      omega
    have he : utf_char2bytes c = [0xFC + (c >>> 30), 0x80 + ((c >>> 24) &&& 0x3F),
        0x80 + ((c >>> 18) &&& 0x3F), 0x80 + ((c >>> 12) &&& 0x3F),
        0x80 + ((c >>> 6) &&& 0x3F), 0x80 + (c &&& 0x3F)] := by
      unfold utf_char2bytes
      rw [if_neg (by omega), if_neg (by omega), if_neg (by omega), if_neg (by omega),
        if_neg (by omega)]
    rw [he]
    refine ⟨?_, ?_, by norm_num⟩
    · rw [show [0xFC + (c >>> 30), 0x80 + ((c >>> 24) &&& 0x3F), 0x80 + ((c >>> 18) &&& 0x3F),
          0x80 + ((c >>> 12) &&& 0x3F), 0x80 + ((c >>> 6) &&& 0x3F),
          0x80 + (c &&& 0x3F)].getD 0 0 = 0xFC + (c >>> 30) from rfl,
        tab_len6 _ (by omega) (by omega)]
      rfl
    · unfold utf_char2len
      rw [if_neg (by omega), if_neg (by omega), if_neg (by omega), if_neg (by omega),
        if_neg (by omega)]
      rfl

/-- C6 witness: the theorem instantiated at the Euro sign. -/
theorem C6_witness :
    ((utf_char2bytes 0x20AC).length
      = utf8len_tab.getD ((utf_char2bytes 0x20AC).getD 0 0) 0) ∧
    (utf_char2bytes 0x20AC).length = utf_char2len 0x20AC ∧
    (utf_char2bytes 0x20AC).length ≤ 6 :=
  C6_shortest 0x20AC (by decide)

/-- C2: a bounded length query on a truncated prefix of a valid multi-byte
encoding returns the full declared length `L`, which is greater than the
available size `k` and never the ILLEGAL signal 1. -/
theorem C2_truncation (E : List Nat) (L k : Nat)
    (hlen : E.length = L) (hL2 : 2 ≤ L) (hL6 : L ≤ 6)
    (hlead : utf8len_tab.getD (E.getD 0 0) 0 = L)
    (hcont : ∀ i, 1 ≤ i → i < L → E.getD i 0 &&& 0xC0 = 0x80)
    (hk0 : 0 < k) (hkL : k < L) :
    utf_ptr2len_len E k = L ∧ k < utf_ptr2len_len E k ∧ utf_ptr2len_len E k ≠ 1 := by
  have hmain : utf_ptr2len_len E k = L := by
    unfold utf_ptr2len_len
    rw [hlead, if_neg (by omega), if_pos hkL]
    have hall : ((List.range (k - 1)).all fun i => E.getD (i + 1) 0 &&& 0xC0 == 0x80) = true := by
      rw [List.all_eq_true]
      intro x hx
      rw [List.mem_range] at hx
      simpa using hcont (x + 1) (by omega) (by omega)
    rw [if_pos hall]
  exact ⟨hmain, by omega, by omega⟩

/-- C2 witness: the first two bytes of the three-byte Euro-sign encoding. -/
theorem C2_witness :
    utf_ptr2len_len [0xE2, 0x82, 0xAC] 2 = 3 ∧ 2 < utf_ptr2len_len [0xE2, 0x82, 0xAC] 2 ∧
    utf_ptr2len_len [0xE2, 0x82, 0xAC] 2 ≠ 1 :=
  C2_truncation [0xE2, 0x82, 0xAC] 3 2 rfl (by omega) (by omega) (by decide)
    (by intro i h1 h2; interval_cases i <;> decide) (by omega) (by omega)

/-- C3: a buffer starting with the bytes C3 83, read with at least 2 bytes
remaining, decodes through `utf_safe_read_char_adv` as the codepoint 0x00C3
with exactly 2 bytes consumed (not the INVALID result −1). -/
theorem C3_special_c3 (s : List Nat) (n : Nat) (h0 : s.getD 0 0 = 0xC3)
    (h1 : s.getD 1 0 = 0x83) (hn : 2 ≤ n) :
    utf_safe_read_char_adv s n = (0xC3, 2) := by
  have hc : utf_ptr2char s = 0xC3 := by
    unfold utf_ptr2char
    rw [h0, h1]
    rw [if_neg (by decide),
      if_pos (⟨by decide, by decide⟩ : 1 < utf8len_tab_zero.getD 0xC3 0 ∧ 0x83 &&& 0xC0 = 0x80),
      if_pos (by decide : utf8len_tab_zero.getD 0xC3 0 = 2)]
    decide
  unfold utf_safe_read_char_adv
  rw [h0, h1, hc]
  rw [if_neg (by omega), if_neg (by decide),
    if_pos (le_trans (by decide : utf8len_tab_zero.getD 0xC3 0 ≤ 2) hn),
    if_pos (Or.inr ⟨rfl, rfl⟩)]
  decide

/-- C3 witness: the two-byte buffer C3 83 itself with n = 2. -/
theorem C3_witness : utf_safe_read_char_adv [0xC3, 0x83] 2 = (0xC3, 2) :=
  C3_special_c3 [0xC3, 0x83] 2 rfl rfl (by omega)

theorem tabZ_le6 : ∀ b : Nat, utf8len_tab_zero.getD b 0 ≤ 6 := by
  intro b
  rcases lt_or_le b 256 with h | h
  · revert h
    revert b
    decide
  · rw [List.getD_eq_default]
    · omega
    · simpa using h

theorem tabZ_zero_imp (b : Nat) (h : utf8len_tab_zero.getD b 0 = 0) :
    0x80 ≤ b ∧ b ≠ 0xC3 := by
  rcases lt_or_le b 256 with hb | hb
  · revert h
    have : ∀ x < 256, utf8len_tab_zero.getD x 0 = 0 → 0x80 ≤ x ∧ x ≠ 0xC3 := by decide
    exact this b hb
  · exact ⟨by omega, by omega⟩

theorem utf_ptr2char_of_tabZ_zero (s : List Nat)
    (h : utf8len_tab_zero.getD (s.getD 0 0) 0 = 0) :
    utf_ptr2char s = s.getD 0 0 := by
  unfold utf_ptr2char
  rw [if_neg (by have := (tabZ_zero_imp _ h).1; omega)]
  rw [if_neg (by rw [h]; rintro ⟨h1, -⟩; omega)]

/-- Function `utf_ptr2char` only reads bytes at indices below
`max 1 (utf8len_tab_zero[first byte])`. -/
theorem utf_ptr2char_agree (s t : List Nat)
    (h0 : s.getD 0 0 = t.getD 0 0)
    (h : ∀ i, 1 ≤ i → i < utf8len_tab_zero.getD (s.getD 0 0) 0 →
      s.getD i 0 = t.getD i 0) :
    utf_ptr2char s = utf_ptr2char t := by
  have hL : utf8len_tab_zero.getD (s.getD 0 0) 0 ≤ 6 := tabZ_le6 _
  unfold utf_ptr2char
  rw [← h0]
  set L := utf8len_tab_zero.getD (s.getD 0 0) 0 with hLdef
  interval_cases L
  · norm_num
  · norm_num
  · rw [← h 1 (by omega) (by omega)]
    norm_num
  · rw [← h 1 (by omega) (by omega), ← h 2 (by omega) (by omega)]
    norm_num
  · rw [← h 1 (by omega) (by omega), ← h 2 (by omega) (by omega),
      ← h 3 (by omega) (by omega)]
    norm_num
  · rw [← h 1 (by omega) (by omega), ← h 2 (by omega) (by omega),
      ← h 3 (by omega) (by omega), ← h 4 (by omega) (by omega)]
    norm_num
  · rw [← h 1 (by omega) (by omega), ← h 2 (by omega) (by omega),
      ← h 3 (by omega) (by omega), ← h 4 (by omega) (by omega),
      ← h 5 (by omega) (by omega)]

/-- C4: (a) `utf_safe_read_char_adv` is determined by the first `n` bytes of
the buffer — it never reads past `n`; (b) whenever it returns the INVALID
result −1, it consumes nothing (cursor and remaining count unchanged). -/
theorem C4_safe_read_bounds :
    (∀ (s t : List Nat) (n : Nat), (∀ i, i < n → s.getD i 0 = t.getD i 0) →
      utf_safe_read_char_adv s n = utf_safe_read_char_adv t n) ∧
    (∀ (s : List Nat) (n : Nat), (utf_safe_read_char_adv s n).1 = -1 →
      (utf_safe_read_char_adv s n).2 = 0) := by
  constructor
  · intro s t n h
    by_cases hn : n = 0
    · unfold utf_safe_read_char_adv
      rw [if_pos hn, if_pos hn]
    have h0 : s.getD 0 0 = t.getD 0 0 := h 0 (by omega)
    unfold utf_safe_read_char_adv
    rw [← h0]
    by_cases hk1 : utf8len_tab_zero.getD (s.getD 0 0) 0 = 1
    · rw [if_neg hn, if_neg hn, if_pos hk1, if_pos hk1]
    rw [if_neg hn, if_neg hn, if_neg hk1, if_neg hk1]
    by_cases hkn : utf8len_tab_zero.getD (s.getD 0 0) 0 ≤ n
    · rw [if_pos hkn, if_pos hkn]
      by_cases hk0 : utf8len_tab_zero.getD (s.getD 0 0) 0 = 0
      · have hcs : utf_ptr2char s = s.getD 0 0 := utf_ptr2char_of_tabZ_zero s hk0
        have hct : utf_ptr2char t = t.getD 0 0 := by
          apply utf_ptr2char_of_tabZ_zero
          rw [← h0]
          exact hk0
        have hne : s.getD 0 0 ≠ 0xC3 := (tabZ_zero_imp _ hk0).2
        have hconds : ¬ (utf_ptr2char s ≠ s.getD 0 0 ∨
            (utf_ptr2char s = 0xC3 ∧ s.getD 1 0 = 0x83)) := by
          rw [hcs]
          rintro (hc | ⟨hc, -⟩)
          · exact hc rfl
          · exact hne hc
        have hcondt : ¬ (utf_ptr2char t ≠ s.getD 0 0 ∨
            (utf_ptr2char t = 0xC3 ∧ t.getD 1 0 = 0x83)) := by
          rw [hct, ← h0]
          rintro (hc | ⟨hc, -⟩)
          · exact hc rfl
          · exact hne hc
        rw [if_neg hconds, if_neg hcondt]
      · have hc : utf_ptr2char s = utf_ptr2char t := by
          apply utf_ptr2char_agree s t h0
          intro i h1 h2
          exact h i (by omega)
        have h1b : s.getD 1 0 = t.getD 1 0 := h 1 (by omega)
        rw [← hc, ← h1b]
    · rw [if_neg hkn, if_neg hkn]
  · intro s n
    unfold utf_safe_read_char_adv
    by_cases h1 : n = 0
    · rw [if_pos h1]
      intro hr
      exact absurd hr (by decide)
    rw [if_neg h1]
    by_cases h2 : utf8len_tab_zero.getD (s.getD 0 0) 0 = 1
    · rw [if_pos h2]
      intro hr
      simp at hr
    rw [if_neg h2]
    by_cases h3 : utf8len_tab_zero.getD (s.getD 0 0) 0 ≤ n
    · rw [if_pos h3]
      by_cases h4 : utf_ptr2char s ≠ s.getD 0 0 ∨ (utf_ptr2char s = 0xC3 ∧ s.getD 1 0 = 0x83)
      · rw [if_pos h4]
        intro hr
        simp at hr
      · rw [if_neg h4]
        intro hr
        rfl
    · rw [if_neg h3]
      intro hr
      rfl

/-- C4 witness: agreement on the first byte determines the result, and an
illegal lead byte consumes nothing. -/
theorem C4_witness :
    utf_safe_read_char_adv [0xC3] 1 = utf_safe_read_char_adv [0xC3, 7] 1 ∧
    (utf_safe_read_char_adv [0x80] 5).2 = 0 :=
  ⟨C4_safe_read_bounds.1 [0xC3] [0xC3, 7] 1
      (by intro i hi; interval_cases i <;> rfl),
    C4_safe_read_bounds.2 [0x80] 5 (by decide)⟩

/-- Modelled from the spec: `MAX_MCO`, the maximum number of composing
characters collected (`maxComposing = 6`); the constant itself is defined in
a header that is not part of the source file. -/
def MAX_MCO : Nat := 6

/-- Inner loop of `utfc_ptr2char` (`for (;;) { pcc[i++] = cc; ... }`).
`fuel` only bounds the recursion: the loop is entered with `fuel = MAX_MCO`
and `i = 0` and stops at `i == MAX_MCO`, so fuel never runs out first.
`iscomp` is `utf_iscomposing` (a generated Unicode table, not in the source
file), kept abstract. -/
def utfc_loop (iscomp : Nat → Bool) (p : List Nat) :
    Nat → Nat → Nat → Nat → List Nat → Nat × List Nat
  | 0, _, _, i, pcc => (i, pcc)
  | fuel + 1, len, cc, i, pcc =>
    if i + 1 = MAX_MCO then (i + 1, pcc.set i cc)
    else if p.getD (len + utf_ptr2len (p.drop len)) 0 < 0x80 then (i + 1, pcc.set i cc)
    else if iscomp (utf_ptr2char (p.drop (len + utf_ptr2len (p.drop len)))) then
      utfc_loop iscomp p fuel (len + utf_ptr2len (p.drop len))
        (utf_ptr2char (p.drop (len + utf_ptr2len (p.drop len)))) (i + 1) (pcc.set i cc)
    else (i + 1, pcc.set i cc)

/-- Common tail of both composing-char collectors: the C code stores a 0
terminator after the last composing char whenever fewer than MAX_MCO were
stored (`if (i < MAX_MCO) pcc[i] = 0`), and returns the base character. -/
def utfc_finish (c : Nat) (r : Nat × List Nat) : Nat × Nat × List Nat :=
  if r.1 < MAX_MCO then (c, r.1, r.2.set r.1 0) else (c, r.1, r.2)

/-- Function `utfc_ptr2char`: decode a base character and up to MAX_MCO composing
characters.  `composinglike` is `UTF_COMPOSINGLIKE` (implemented outside the
source file via Arabic shaping rules), kept abstract.  The result is
(base char, number of composing chars stored, final contents of `pcc`). -/
def utfc_ptr2char (composinglike : List Nat → List Nat → Bool) (iscomp : Nat → Bool)
    (p pcc : List Nat) : Nat × Nat × List Nat :=
  utfc_finish (utf_ptr2char p)
    (if (1 < utf_ptr2len p ∨ p.getD 0 0 < 0x80) ∧ 0x80 ≤ p.getD (utf_ptr2len p) 0 ∧
        composinglike p (p.drop (utf_ptr2len p)) = true then
      utfc_loop iscomp p MAX_MCO (utf_ptr2len p)
        (utf_ptr2char (p.drop (utf_ptr2len p))) 0 pcc
    else (0, pcc))

/-- Inner loop of `utfc_ptr2char_len` (`for (; i < MAX_MCO; i++)`), with the
same fuel convention as `utfc_loop`.  Note the C writes `pcc[i]` even on the
iteration that breaks, which the terminating store later overwrites. -/
def utfc_loop_len (cl : List Nat → List Nat → Bool) (iscomp : Nat → Bool)
    (p : List Nat) (maxlen : Nat) : Nat → Nat → Nat → List Nat → Nat × List Nat
  | 0, _, i, pcc => (i, pcc)
  | fuel + 1, len, i, pcc =>
    if MAX_MCO ≤ i then (i, pcc)
    else if ¬ (1 < utf_ptr2len_len (p.drop len) (maxlen - len) ∧
        utf_ptr2len_len (p.drop len) (maxlen - len) ≤ maxlen - len) then (i, pcc)
    else if utf_ptr2char (p.drop len) < 0x80 then
      (i, pcc.set i (utf_ptr2char (p.drop len)))
    else if (if i = 0 then cl p (p.drop len) else iscomp (utf_ptr2char (p.drop len))) then
      utfc_loop_len cl iscomp p maxlen fuel
        (len + utf_ptr2len_len (p.drop len) (maxlen - len)) (i + 1)
        (pcc.set i (utf_ptr2char (p.drop len)))
    else (i, pcc.set i (utf_ptr2char (p.drop len)))

/-- Function `utfc_ptr2char_len`: bounded variant of `utfc_ptr2char`, reading no more
than `maxlen` bytes. -/
def utfc_ptr2char_len (cl : List Nat → List Nat → Bool) (iscomp : Nat → Bool)
    (p pcc : List Nat) (maxlen : Nat) : Nat × Nat × List Nat :=
  utfc_finish
    (if 1 < utf_ptr2len_len p maxlen ∧ utf_ptr2len_len p maxlen ≤ maxlen then
      utf_ptr2char p
    else p.getD 0 0)
    (if ((1 < utf_ptr2len_len p maxlen ∧ utf_ptr2len_len p maxlen ≤ maxlen) ∨
        (if 1 < utf_ptr2len_len p maxlen ∧ utf_ptr2len_len p maxlen ≤ maxlen then
          utf_ptr2char p
        else p.getD 0 0) < 0x80) ∧
        utf_ptr2len_len p maxlen < maxlen ∧ 0x80 ≤ p.getD (utf_ptr2len_len p maxlen) 0 then
      utfc_loop_len cl iscomp p maxlen MAX_MCO (utf_ptr2len_len p maxlen) 0 pcc
    else (0, pcc))

theorem getD_set_zero : ∀ (l : List Nat) (i : Nat), (l.set i 0).getD i 0 = 0
  | [], _ => by simp [List.getD]
  | _ :: _, 0 => rfl
  | a :: t, i + 1 => by
    simpa [List.getD_cons_succ] using getD_set_zero t i

theorem utfc_loop_le (iscomp : Nat → Bool) (p : List Nat) :
    ∀ (fuel len cc i : Nat) (pcc : List Nat),
      (utfc_loop iscomp p fuel len cc i pcc).1 ≤ i + fuel
  | 0, _, _, i, pcc => by simp [utfc_loop]
  | fuel + 1, len, cc, i, pcc => by
    unfold utfc_loop
    split_ifs
    · show i + 1 ≤ i + (fuel + 1)
      omega
    · show i + 1 ≤ i + (fuel + 1)
      omega
    · have := utfc_loop_le iscomp p fuel (len + utf_ptr2len (p.drop len))
        (utf_ptr2char (p.drop (len + utf_ptr2len (p.drop len)))) (i + 1) (pcc.set i cc)
      omega
    · show i + 1 ≤ i + (fuel + 1)
      omega

theorem utfc_loop_len_le (cl : List Nat → List Nat → Bool) (iscomp : Nat → Bool)
    (p : List Nat) (maxlen : Nat) :
    ∀ (fuel len i : Nat) (pcc : List Nat), i ≤ MAX_MCO →
      (utfc_loop_len cl iscomp p maxlen fuel len i pcc).1 ≤ MAX_MCO
  | 0, _, i, pcc, h => by simpa [utfc_loop_len] using h
  | fuel + 1, len, i, pcc, h => by
    unfold utfc_loop_len
    split_ifs
    all_goals first
      | exact h
      | exact utfc_loop_len_le cl iscomp p maxlen fuel
          (len + utf_ptr2len_len (p.drop len) (maxlen - len)) (i + 1)
          (pcc.set i (utf_ptr2char (p.drop len))) (by omega)

theorem utfc_finish_spec (c : Nat) (r : Nat × List Nat) (h : r.1 ≤ MAX_MCO) :
    (utfc_finish c r).2.1 ≤ MAX_MCO ∧
    ((utfc_finish c r).2.1 < MAX_MCO →
      (utfc_finish c r).2.2.getD (utfc_finish c r).2.1 0 = 0) := by
  unfold utfc_finish
  by_cases hlt : r.1 < MAX_MCO
  · rw [if_pos hlt]
    refine ⟨?_, fun _ => ?_⟩
    · show r.1 ≤ MAX_MCO
      omega
    · show (r.2.set r.1 0).getD r.1 0 = 0
      exact getD_set_zero r.2 r.1
  · rw [if_neg hlt]
    refine ⟨?_, fun hc => ?_⟩
    · show r.1 ≤ MAX_MCO
      exact h
    · exact absurd (show r.1 < MAX_MCO from hc) hlt

/-- C5: for every input byte sequence (any contents, any length), any
composing predicates and any initial output array, `utfc_ptr2char` and the
bounded `utfc_ptr2char_len` store at most MAX_MCO = 6 composing codepoints,
and when fewer than 6 are stored the entry after the last one is 0. -/
theorem C5_composing_bound :
    (∀ (cl : List Nat → List Nat → Bool) (iscomp : Nat → Bool) (p pcc : List Nat),
      (utfc_ptr2char cl iscomp p pcc).2.1 ≤ MAX_MCO ∧
      ((utfc_ptr2char cl iscomp p pcc).2.1 < MAX_MCO →
        (utfc_ptr2char cl iscomp p pcc).2.2.getD (utfc_ptr2char cl iscomp p pcc).2.1 0
          = 0)) ∧
    (∀ (cl : List Nat → List Nat → Bool) (iscomp : Nat → Bool) (p pcc : List Nat)
        (maxlen : Nat),
      (utfc_ptr2char_len cl iscomp p pcc maxlen).2.1 ≤ MAX_MCO ∧
      ((utfc_ptr2char_len cl iscomp p pcc maxlen).2.1 < MAX_MCO →
        (utfc_ptr2char_len cl iscomp p pcc maxlen).2.2.getD
          (utfc_ptr2char_len cl iscomp p pcc maxlen).2.1 0 = 0)) := by
  constructor
  · intro cl iscomp p pcc
    unfold utfc_ptr2char
    apply utfc_finish_spec
    split_ifs
    · have := utfc_loop_le iscomp p MAX_MCO (utf_ptr2len p)
        (utf_ptr2char (p.drop (utf_ptr2len p))) 0 pcc
      omega
    · simp [MAX_MCO]
  · intro cl iscomp p pcc maxlen
    unfold utfc_ptr2char_len
    apply utfc_finish_spec
    split_ifs
    · exact utfc_loop_len_le cl iscomp p maxlen MAX_MCO (utf_ptr2len_len p maxlen) 0 pcc
        (by omega)
    · simp [MAX_MCO]
    · exact utfc_loop_len_le cl iscomp p maxlen MAX_MCO (utf_ptr2len_len p maxlen) 0 pcc
        (by omega)
    · simp [MAX_MCO]

/-- C5 witness: concrete instantiation on the sequence `[0x41]` with empty
predicates and a junk output array. -/
theorem C5_witness :
    (utfc_ptr2char (fun _ _ => false) (fun _ => false) [0x41] [7, 7, 7, 7, 7, 7]).2.2.getD
      (utfc_ptr2char (fun _ _ => false) (fun _ => false) [0x41] [7, 7, 7, 7, 7, 7]).2.1 0
      = 0 :=
  (C5_composing_bound.1 (fun _ _ => false) (fun _ => false) [0x41] [7, 7, 7, 7, 7, 7]).2
    (by decide)

/-- The `intable` binary search loop (`while (top >= bot)`).  `fuel` only bounds
the recursion; the interval shrinks every iteration, so `length + 1`
iterations always suffice. -/
def intable_go (table : List (Nat × Nat)) (c : Nat) : Nat → Int → Int → Bool
  | 0, _, _ => false
  | fuel + 1, bot, top =>
    if bot ≤ top then
      if (table.getD ((bot + top) / 2).toNat (0, 0)).2 < c then
        intable_go table c fuel ((bot + top) / 2 + 1) top
      else if c < (table.getD ((bot + top) / 2).toNat (0, 0)).1 then
        intable_go table c fuel bot ((bot + top) / 2 - 1)
      else true
    else false

/-- Function `intable`: binary-search membership in a sorted list of closed
intervals. -/
def intable (table : List (Nat × Nat)) (c : Nat) : Bool :=
  if c < (table.getD 0 (0, 0)).1 then false
  else intable_go table c (table.length + 1) 0 ((table.length : Int) - 1)

/-- The static `nonprint` interval table inside `utf_printable`. -/
def nonprint : List (Nat × Nat) :=
  [(0x070F, 0x070F), (0x180B, 0x180E), (0x200B, 0x200F), (0x202A, 0x202E),
   (0x206A, 0x206F), (0xD800, 0xDFFF), (0xFEFF, 0xFEFF), (0xFFF9, 0xFFFB),
   (0xFFFE, 0xFFFF)]

/-- Function `utf_printable` (the internal-tables variant, without
USE_WCHAR_FUNCTIONS): true for characters displayable in a normal way. -/
def utf_printable (c : Nat) : Bool := ! intable nonprint c

/-- Function `utf_char2cells`: display-cell count of character `c`.  The option
`p_emoji`, the test `*p_ambw == 'd'`, the printability test `vim_isprintc`
(defined outside this source file) and the generated `doublewidth`,
`emoji_width` and `ambiguous` tables are parameters.  The shared trailing
ambiguous-width check and `return 1` of the C function appear in both
branches. -/
def utf_char2cells (isprintc : Nat → Bool) (p_emoji p_ambw_d : Bool)
    (doublewidth emoji_width ambiguous : List (Nat × Nat)) (c : Nat) : Nat :=
  if 0x100 ≤ c then
    if ¬ utf_printable c then 6
    else if intable doublewidth c then 2
    else if p_emoji ∧ intable emoji_width c then 2
    else if 0x80 ≤ c ∧ p_ambw_d ∧ intable ambiguous c then 2
    else 1
  else if 0x80 ≤ c ∧ ¬ isprintc c then 4
  else if 0x80 ≤ c ∧ p_ambw_d ∧ intable ambiguous c then 2
  else 1

/-- C7 (amended): for every codepoint in `0x80..0xFF` failing the
printability test, `utf_char2cells` returns 4, before any width-policy or
table lookup.  (The original claim said codepoints below 0x80; those never
reach the unprintable branch and yield 1.) -/
theorem C7_unprintable_cells (isprintc : Nat → Bool) (pe pa : Bool)
    (dw ew am : List (Nat × Nat)) (c : Nat) (h1 : 0x80 ≤ c) (h2 : c < 0x100)
    (hp : isprintc c = false) :
    utf_char2cells isprintc pe pa dw ew am c = 4 := by
  unfold utf_char2cells
  rw [if_neg (by omega), if_pos ⟨h1, by simp [hp]⟩]

/-- C7 counterexample: codepoint 1 is below 0x80 and fails the (here:
everywhere-false) printability test, yet the width is 1, not 4. -/
theorem C7_counterexample :
    (1:Nat) < 0x80 ∧ (fun _ : Nat => false) 1 = false ∧
    utf_char2cells (fun _ => false) false false [] [] [] 1 ≠ 4 := by decide

/-- C7 witness: codepoint 0x80 under an everywhere-false printability
test. -/
theorem C7_witness :
    utf_char2cells (fun _ => false) false false [] [] [] 0x80 = 4 :=
  C7_unprintable_cells (fun _ => false) false false [] [] [] 0x80 (by omega)
    (by omega) rfl

/-- ASCII byte list of a name literal: encoding names are C byte strings. -/
def strLit (s : String) : List Nat := s.data.map Char.toNat

/-- Bool-valued list-prefix test, modelling `STRNCMP(name, lit, n) == 0`. -/
def isPre : List Nat → List Nat → Bool
  | [], _ => true
  | _ :: _, [] => false
  | a :: as, b :: bs => a == b && isPre as bs

/-- Macro `TOLOWER_ASC`: bytes in 0x41..0x5A (A..Z) move down to a..z. -/
def tolower_asc (b : Nat) : Nat :=
  if b < 0x41 ∨ 0x5A < b then b else b + 0x20

/-- One character of the first `enc_canonize` pass: `'_'` (0x5F) → `'-'`
(0x2D), else ASCII-lowercase. -/
def norm_char (b : Nat) : Nat := if b = 0x5F then 0x2D else tolower_asc b

/-- The lowercasing/underscore pass of `enc_canonize` over a whole name. -/
def norm_name (s : List Nat) : List Nat := s.map norm_char

/-- Length of the Vim-specific head that `enc_skip` skips. -/
def enc_pre_len (p : List Nat) : Nat :=
  if isPre (strLit "2byte-") p then 6
  else if isPre (strLit "8bit-") p then 5
  else 0

/-- Function `enc_skip`: skip a "2byte-" or "8bit-" head. -/
def enc_skip (p : List Nat) : List Nat := p.drop (enc_pre_len p)

/-- The `enc_canonize` spelling fix: "microsoft-cp" → "cp"
(`STRMOVE(p, p + 10)`). -/
def fix_microsoft (p : List Nat) : List Nat :=
  if isPre (strLit "microsoft-cp") p then p.drop 10 else p

/-- The `enc_canonize` spelling fix: "iso8859" → "iso-8859" (insert a dash at
index 3). -/
def fix_iso8859 (p : List Nat) : List Nat :=
  if isPre (strLit "iso8859") p then p.take 3 ++ 0x2D :: p.drop 3 else p

/-- The `enc_canonize` spelling fix: "iso-8859n" → "iso-8859-n" (the C reads
`p[8]`, which is the terminating NUL when the name ends there; `getD _ 0`
models that). -/
def fix_iso_8859_dash (p : List Nat) : List Nat :=
  if isPre (strLit "iso-8859") p ∧ p.getD 8 0 ≠ 0x2D then
    p.take 8 ++ 0x2D :: p.drop 8
  else p

/-- The `enc_canonize` spelling fix: "latin-N" → "latinN" (delete the byte at
index 5). -/
def fix_latin_dash (p : List Nat) : List Nat :=
  if isPre (strLit "latin-") p then p.take 5 ++ p.drop 6 else p

/-- Modelled from the spec: the `ENC_*` property bits of an Encoding
Descriptor are a bit-set of distinct flags (their numeric values live in a
header that is not part of the source file; only distinctness matters). -/
def ENC_8BIT : Nat := 0x01

def ENC_DBCS : Nat := 0x02

def ENC_UNICODE : Nat := 0x04

def ENC_ENDIAN_B : Nat := 0x10

def ENC_ENDIAN_L : Nat := 0x20

def ENC_2BYTE : Nat := 0x40

def ENC_4BYTE : Nat := 0x80

def ENC_2WORD : Nat := 0x100

def ENC_LATIN1 : Nat := 0x200

def ENC_LATIN9 : Nat := 0x400

def ENC_MACROMAN : Nat := 0x800

/-- Table `enc_canon_table`: canonical encoding names and their properties, in
declaration order (the MS-Windows codepage column is omitted: nothing
verified here reads it). -/
def enc_canon_table : List (String × Nat) :=
  [("latin1", ENC_8BIT + ENC_LATIN1),
   ("iso-8859-2", ENC_8BIT), ("iso-8859-3", ENC_8BIT), ("iso-8859-4", ENC_8BIT),
   ("iso-8859-5", ENC_8BIT), ("iso-8859-6", ENC_8BIT), ("iso-8859-7", ENC_8BIT),
   ("iso-8859-8", ENC_8BIT), ("iso-8859-9", ENC_8BIT), ("iso-8859-10", ENC_8BIT),
   ("iso-8859-11", ENC_8BIT), ("iso-8859-13", ENC_8BIT), ("iso-8859-14", ENC_8BIT),
   ("iso-8859-15", ENC_8BIT + ENC_LATIN9),
   ("koi8-r", ENC_8BIT), ("koi8-u", ENC_8BIT),
   ("utf-8", ENC_UNICODE),
   ("ucs-2", ENC_UNICODE + ENC_ENDIAN_B + ENC_2BYTE),
   ("ucs-2le", ENC_UNICODE + ENC_ENDIAN_L + ENC_2BYTE),
   ("utf-16", ENC_UNICODE + ENC_ENDIAN_B + ENC_2WORD),
   ("utf-16le", ENC_UNICODE + ENC_ENDIAN_L + ENC_2WORD),
   ("ucs-4", ENC_UNICODE + ENC_ENDIAN_B + ENC_4BYTE),
   ("ucs-4le", ENC_UNICODE + ENC_ENDIAN_L + ENC_4BYTE),
   ("debug", ENC_DBCS), ("euc-jp", ENC_DBCS), ("sjis", ENC_DBCS),
   ("euc-kr", ENC_DBCS), ("euc-cn", ENC_DBCS), ("euc-tw", ENC_DBCS),
   ("big5", ENC_DBCS),
   ("cp437", ENC_8BIT), ("cp737", ENC_8BIT), ("cp775", ENC_8BIT),
   ("cp850", ENC_8BIT), ("cp852", ENC_8BIT), ("cp855", ENC_8BIT),
   ("cp857", ENC_8BIT), ("cp860", ENC_8BIT), ("cp861", ENC_8BIT),
   ("cp862", ENC_8BIT), ("cp863", ENC_8BIT), ("cp865", ENC_8BIT),
   ("cp866", ENC_8BIT), ("cp869", ENC_8BIT), ("cp874", ENC_8BIT),
   ("cp932", ENC_DBCS), ("cp936", ENC_DBCS), ("cp949", ENC_DBCS),
   ("cp950", ENC_DBCS),
   ("cp1250", ENC_8BIT), ("cp1251", ENC_8BIT), ("cp1253", ENC_8BIT),
   ("cp1254", ENC_8BIT), ("cp1255", ENC_8BIT), ("cp1256", ENC_8BIT),
   ("cp1257", ENC_8BIT), ("cp1258", ENC_8BIT),
   ("macroman", ENC_8BIT + ENC_MACROMAN), ("hp-roman8", ENC_8BIT)]

/-- Table `enc_alias_table`: aliases with the index of their canonical name. -/
def enc_alias_table : List (String × Nat) :=
  [("ansi", 0), ("iso-8859-1", 0), ("latin2", 1), ("latin3", 2), ("latin4", 3),
   ("cyrillic", 4), ("arabic", 5), ("greek", 6), ("hebrew", 7), ("latin5", 8),
   ("turkish", 8), ("latin6", 9), ("nordic", 9), ("thai", 10), ("latin7", 11),
   ("latin8", 12), ("latin9", 13), ("utf8", 16), ("unicode", 17), ("ucs2", 17),
   ("ucs2be", 17), ("ucs-2be", 17), ("ucs2le", 18), ("utf16", 19), ("utf16be", 19),
   ("utf-16be", 19), ("utf16le", 20), ("ucs4", 21), ("ucs4be", 21), ("ucs-4be", 21),
   ("ucs4le", 22), ("utf32", 21), ("utf-32", 21), ("utf32be", 21), ("utf-32be", 21),
   ("utf32le", 22), ("utf-32le", 22), ("932", 45), ("949", 47), ("936", 46),
   ("gbk", 46), ("950", 48), ("eucjp", 24), ("unix-jis", 24), ("ujis", 24),
   ("shift-jis", 25), ("pck", 25), ("euckr", 26), ("5601", 26), ("euccn", 27),
   ("gb2312", 27), ("euctw", 28), ("japan", 24), ("korea", 26), ("prc", 27),
   ("chinese", 27), ("taiwan", 28), ("cp950", 29), ("950", 29), ("mac", 57),
   ("mac-roman", 57)]

/-- Function `enc_canon_search`: first canonical-table entry whose name is `name`
(the C returns its index; the entry carries the same information). -/
def enc_canon_search (name : List Nat) : Option (String × Nat) :=
  enc_canon_table.find? (fun e => strLit e.1 == name)

/-- Function `enc_alias_search`: canonical-table index for alias `name`. -/
def enc_alias_search (name : List Nat) : Option Nat :=
  (enc_alias_table.find? (fun e => strLit e.1 == name)).map (fun e => e.2)

/-- Function `enc_canon_props`: property bits of canonical name `name`; prefix
heuristics for unknown names. -/
def enc_canon_props (name : List Nat) : Nat :=
  match enc_canon_search name with
  | some e => e.2
  | none =>
    if isPre (strLit "2byte-") name then ENC_DBCS
    else if isPre (strLit "8bit-") name ∨ isPre (strLit "iso-8859-") name then
      ENC_8BIT
    else 0

/-- The four spelling fixes of `enc_canonize`, applied in source order. -/
def enc_fixes (p : List Nat) : List Nat :=
  fix_latin_dash (fix_iso_8859_dash (fix_iso8859 (fix_microsoft p)))

/-- The body of `enc_canonize` after the "default" special case: normalize,
skip the Vim-specific head, apply the spelling fixes, then resolve through
the canonical and alias tables; an unrecognized name is returned normalized
(with its head restored). -/
def enc_canonize_body (enc : List Nat) : List Nat :=
  match enc_canon_search (enc_fixes (enc_skip (norm_name enc))) with
  | some _ => enc_fixes (enc_skip (norm_name enc))
  | none =>
    match enc_alias_search (enc_fixes (enc_skip (norm_name enc))) with
    | some i => strLit (enc_canon_table.getD i ("", 0)).1
    | none =>
      (norm_name enc).take (enc_pre_len (norm_name enc))
        ++ enc_fixes (enc_skip (norm_name enc))

/-- Function `enc_canonize`.  The name "default" resolves to `fenc_default`, a global
set by startup code outside this source file, so it is a parameter. -/
def enc_canonize (fenc_default : List Nat) (enc : List Nat) : List Nat :=
  if enc = strLit "default" then fenc_default
  else enc_canonize_body enc

/-- Conversion strategy tags (`vc_type`). -/
inductive ConvType where
  | CONV_NONE
  | CONV_TO_UTF8
  | CONV_9_TO_UTF8
  | CONV_TO_LATIN1
  | CONV_TO_LATIN9
  | CONV_ICONV
deriving DecidableEq, Repr

/-- Conversion context `vimconv_T` (the iconv file descriptor is subsumed by
the `CONV_ICONV` tag here). -/
structure vimconv_T where
  vc_type : ConvType
  vc_factor : Nat
  vc_fail : Bool
deriving DecidableEq, Repr

/-- Function `convert_setup_ext`: select a conversion strategy for a name pair.
Returns (OK?, context).  `iconv_open_ok` stands for `my_iconv_open`
succeeding (the external converter library is outside this source's
scope). -/
def convert_setup_ext (iconv_open_ok : Bool) (from_name : List Nat)
    (from_unicode_is_utf8 : Bool) (to_name : List Nat)
    (to_unicode_is_utf8 : Bool) : Bool × vimconv_T :=
  if from_name = [] ∨ to_name = [] ∨ from_name = to_name then
    (true, ⟨ConvType.CONV_NONE, 1, false⟩)
  else
    let from_prop := enc_canon_props from_name
    let to_prop := enc_canon_props to_name
    let from_is_utf8 : Bool := if from_unicode_is_utf8 then
        decide (from_prop &&& ENC_UNICODE ≠ 0)
      else decide (from_prop = ENC_UNICODE)
    let to_is_utf8 : Bool := if to_unicode_is_utf8 then
        decide (to_prop &&& ENC_UNICODE ≠ 0)
      else decide (to_prop = ENC_UNICODE)
    if from_prop &&& ENC_LATIN1 ≠ 0 ∧ to_is_utf8 = true then
      (true, ⟨ConvType.CONV_TO_UTF8, 2, false⟩)
    else if from_prop &&& ENC_LATIN9 ≠ 0 ∧ to_is_utf8 = true then
      (true, ⟨ConvType.CONV_9_TO_UTF8, 3, false⟩)
    else if from_is_utf8 = true ∧ to_prop &&& ENC_LATIN1 ≠ 0 then
      (true, ⟨ConvType.CONV_TO_LATIN1, 1, false⟩)
    else if from_is_utf8 = true ∧ to_prop &&& ENC_LATIN9 ≠ 0 then
      (true, ⟨ConvType.CONV_TO_LATIN9, 1, false⟩)
    else if iconv_open_ok then (true, ⟨ConvType.CONV_ICONV, 4, false⟩)
    else (false, ⟨ConvType.CONV_NONE, 1, false⟩)

/-- Function `convert_setup`. -/
def convert_setup (iconv_open_ok : Bool) (from_name to_name : List Nat) :
    Bool × vimconv_T :=
  convert_setup_ext iconv_open_ok from_name true to_name true

/-- The `CONV_TO_UTF8` loop of `string_convert_ext`: latin1 bytes to
UTF-8. -/
def latin1_to_utf8 : List Nat → List Nat
  | [] => []
  | c :: t =>
    (if c < 0x80 then [c] else [0xC0 + (c >>> 6), 0x80 + (c &&& 0x3F)])
      ++ latin1_to_utf8 t

/-- The euro-era substitutions of the `CONV_9_TO_UTF8` loop. -/
def latin9_subst (c : Nat) : Nat :=
  if c = 0xA4 then 0x20AC
  else if c = 0xA6 then 0x0160
  else if c = 0xA8 then 0x0161
  else if c = 0xB4 then 0x017D
  else if c = 0xB8 then 0x017E
  else if c = 0xBC then 0x0152
  else if c = 0xBD then 0x0153
  else if c = 0xBE then 0x0178
  else c

/-- The `CONV_9_TO_UTF8` loop of `string_convert_ext`: latin9 bytes to
UTF-8. -/
def latin9_to_utf8 : List Nat → List Nat
  | [] => []
  | c :: t => utf_char2bytes (latin9_subst c) ++ latin9_to_utf8 t

/-- Function `string_convert_ext`: convert `ptr` according to the context.  The
result is `none` for the C NULL, otherwise the output bytes paired with the
count of unconverted trailing bytes.  The `CONV_TO_LATIN1/9` and
`CONV_ICONV` branches depend on the generated composing table, width options
and the external iconv library, all outside this source file, and are kept
abstract as parameters.  The C switch has no `CONV_NONE` case, so a
`CONV_NONE` context falls through with `retval == NULL`; only the empty
input returns early with an allocated empty string. -/
def string_convert_ext (vcp : vimconv_T)
    (to_latin : Bool → List Nat → Option (List Nat × Nat))
    (iconv_str : List Nat → Option (List Nat × Nat))
    (ptr : List Nat) : Option (List Nat × Nat) :=
  if ptr.length = 0 then some ([], 0)
  else
    match vcp.vc_type with
    | ConvType.CONV_NONE => none
    | ConvType.CONV_TO_UTF8 => some (latin1_to_utf8 ptr, 0)
    | ConvType.CONV_9_TO_UTF8 => some (latin9_to_utf8 ptr, 0)
    | ConvType.CONV_TO_LATIN1 => to_latin false ptr
    | ConvType.CONV_TO_LATIN9 => to_latin true ptr
    | ConvType.CONV_ICONV => iconv_str ptr

/-- C8: establishing a conversion from "latin1" to "utf-8" succeeds with the
dedicated internal latin1→UTF-8 strategy (factor 2), never the external
converter, regardless of whether iconv is available; converting the byte E9
through that context yields exactly C3 A9. -/
theorem C8_latin1_to_utf8 (iconv_open_ok : Bool)
    (to_latin : Bool → List Nat → Option (List Nat × Nat))
    (iconv_str : List Nat → Option (List Nat × Nat)) :
    convert_setup iconv_open_ok (strLit "latin1") (strLit "utf-8")
      = (true, ⟨ConvType.CONV_TO_UTF8, 2, false⟩) ∧
    string_convert_ext ⟨ConvType.CONV_TO_UTF8, 2, false⟩ to_latin iconv_str [0xE9]
      = some ([0xC3, 0xA9], 0) := by
  constructor
  · cases iconv_open_ok <;> decide
  · rfl

/-- C10: a context whose strategy is CONV_NONE — what `convert_setup`
establishes when the names are equal or one is empty — converts the empty
input to an allocated empty string but yields NULL (`none`) for every
non-empty input. -/
theorem C10_conv_none :
    (∀ (iconv_open_ok : Bool) (s t : List Nat),
      (s = t ∨ s = [] ∨ t = []) →
      convert_setup iconv_open_ok s t = (true, ⟨ConvType.CONV_NONE, 1, false⟩)) ∧
    (∀ (vcp : vimconv_T)
      (to_latin : Bool → List Nat → Option (List Nat × Nat))
      (iconv_str : List Nat → Option (List Nat × Nat)),
      vcp.vc_type = ConvType.CONV_NONE →
      string_convert_ext vcp to_latin iconv_str [] = some ([], 0) ∧
      ∀ ptr : List Nat, ptr ≠ [] →
        string_convert_ext vcp to_latin iconv_str ptr = none) := by
  constructor
  · intro ic s t h
    unfold convert_setup convert_setup_ext
    rw [if_pos (by tauto)]
  · intro vcp to_latin iconv_str hty
    constructor
    · rfl
    · intro ptr hptr
      unfold string_convert_ext
      rw [if_neg (by simpa using hptr), hty]

/-- C10 witness: CONV_NONE context on the inputs [] and [0x41]. -/
theorem C10_witness :
    convert_setup true (strLit "utf-8") (strLit "utf-8")
      = (true, ⟨ConvType.CONV_NONE, 1, false⟩) ∧
    string_convert_ext ⟨ConvType.CONV_NONE, 1, false⟩ (fun _ _ => none)
      (fun _ => none) [] = some ([], 0) ∧
    string_convert_ext ⟨ConvType.CONV_NONE, 1, false⟩ (fun _ _ => none)
      (fun _ => none) [0x41] = none :=
  ⟨C10_conv_none.1 true (strLit "utf-8") (strLit "utf-8") (Or.inl rfl),
    (C10_conv_none.2 ⟨ConvType.CONV_NONE, 1, false⟩ (fun _ _ => none)
      (fun _ => none) rfl).1,
    (C10_conv_none.2 ⟨ConvType.CONV_NONE, 1, false⟩ (fun _ _ => none)
      (fun _ => none) rfl).2 [0x41] (by decide)⟩

theorem norm_char_idem (b : Nat) : norm_char (norm_char b) = norm_char b := by
  unfold norm_char tolower_asc
  split_ifs <;> omega

theorem norm_name_of_fixed : ∀ (s : List Nat), (∀ b ∈ s, norm_char b = b) →
    norm_name s = s
  | [], _ => rfl
  | a :: t, h => by
    show norm_char a :: norm_name t = a :: t
    rw [h a (List.mem_cons_self a t),
      norm_name_of_fixed t (fun b hb => h b (List.mem_cons_of_mem a hb))]

theorem norm_fixed_of_norm (x : List Nat) : ∀ b ∈ norm_name x, norm_char b = b := by
  intro b hb
  obtain ⟨a, -, rfl⟩ := List.mem_map.1 hb
  exact norm_char_idem a

theorem isPre_iff (l : List Nat) : ∀ s, isPre l s = true ↔ ∃ t, s = l ++ t := by
  induction l with
  | nil =>
    intro s
    simp [isPre]
  | cons a as ih =>
    intro s
    cases s with
    | nil =>
      simp [isPre]
    | cons b bs =>
      rw [show isPre (a :: as) (b :: bs) = (a == b && isPre as bs) from rfl,
        Bool.and_eq_true, beq_iff_eq, ih]
      constructor
      · rintro ⟨rfl, t, rfl⟩
        exact ⟨t, rfl⟩
      · rintro ⟨t, h⟩
        rw [List.cons_append] at h
        injection h with h1 h2
        exact ⟨h1.symm, t, h2⟩

theorem isPre_append (l t : List Nat) : isPre l (l ++ t) = true :=
  (isPre_iff l (l ++ t)).2 ⟨t, rfl⟩

theorem fix_microsoft_id (p : List Nat) (h : isPre (strLit "microsoft-cp") p = false) :
    fix_microsoft p = p := by
  unfold fix_microsoft
  rw [if_neg (by simp [h])]

theorem fix_iso8859_id (p : List Nat) (h : isPre (strLit "iso8859") p = false) :
    fix_iso8859 p = p := by
  unfold fix_iso8859
  rw [if_neg (by simp [h])]

theorem fix_isodash_id_nopre (p : List Nat) (h : isPre (strLit "iso-8859") p = false) :
    fix_iso_8859_dash p = p := by
  unfold fix_iso_8859_dash
  rw [if_neg (by rw [h]; rintro ⟨hc, -⟩; exact absurd hc (by simp))]

theorem fix_isodash_id_dash (p : List Nat) (h : p.getD 8 0 = 0x2D) :
    fix_iso_8859_dash p = p := by
  unfold fix_iso_8859_dash
  rw [if_neg (fun hc => hc.2 h)]

theorem fix_latin_id (p : List Nat) (h : isPre (strLit "latin-") p = false) :
    fix_latin_dash p = p := by
  unfold fix_latin_dash
  rw [if_neg (by simp [h])]

theorem fix_microsoft_app (t : List Nat) :
    fix_microsoft (strLit "microsoft-cp" ++ t) = strLit "cp" ++ t := by
  unfold fix_microsoft
  rw [if_pos (isPre_append _ _)]
  rfl

theorem fix_iso8859_app (t : List Nat) :
    fix_iso8859 (strLit "iso8859" ++ t) = strLit "iso-8859" ++ t := by
  unfold fix_iso8859
  rw [if_pos (isPre_append _ _)]
  rfl

theorem fix_isodash_app (t : List Nat) (h : (strLit "iso-8859" ++ t).getD 8 0 ≠ 0x2D) :
    fix_iso_8859_dash (strLit "iso-8859" ++ t) = strLit "iso-8859-" ++ t := by
  unfold fix_iso_8859_dash
  rw [if_pos ⟨isPre_append _ _, h⟩]
  rfl

theorem fix_latin_app (t : List Nat) :
    fix_latin_dash (strLit "latin-" ++ t) = strLit "latin" ++ t := by
  unfold fix_latin_dash
  rw [if_pos (isPre_append _ _)]
  rfl

theorem mem_fix_microsoft {b : Nat} (q : List Nat) (hb : b ∈ fix_microsoft q) :
    b ∈ q := by
  unfold fix_microsoft at hb
  split_ifs at hb
  · exact List.mem_of_mem_drop hb
  · exact hb

theorem mem_fix_iso8859 {b : Nat} (q : List Nat) (hb : b ∈ fix_iso8859 q) :
    b ∈ q ∨ b = 0x2D := by
  unfold fix_iso8859 at hb
  split_ifs at hb
  · rcases List.mem_append.1 hb with h | h
    · exact Or.inl (List.mem_of_mem_take h)
    · rcases List.mem_cons.1 h with h | h
      · exact Or.inr h
      · exact Or.inl (List.mem_of_mem_drop h)
  · exact Or.inl hb

theorem mem_fix_isodash {b : Nat} (q : List Nat) (hb : b ∈ fix_iso_8859_dash q) :
    b ∈ q ∨ b = 0x2D := by
  unfold fix_iso_8859_dash at hb
  split_ifs at hb
  · rcases List.mem_append.1 hb with h | h
    · exact Or.inl (List.mem_of_mem_take h)
    · rcases List.mem_cons.1 h with h | h
      · exact Or.inr h
      · exact Or.inl (List.mem_of_mem_drop h)
  · exact Or.inl hb

theorem mem_fix_latin {b : Nat} (q : List Nat) (hb : b ∈ fix_latin_dash q) :
    b ∈ q := by
  unfold fix_latin_dash at hb
  split_ifs at hb
  · rcases List.mem_append.1 hb with h | h
    · exact List.mem_of_mem_take h
    · exact List.mem_of_mem_drop h
  · exact hb

theorem mem_enc_fixes {b : Nat} (q : List Nat) (hb : b ∈ enc_fixes q) :
    b ∈ q ∨ b = 0x2D := by
  unfold enc_fixes at hb
  rcases mem_fix_latin _ hb with h1
  rcases mem_fix_isodash _ h1 with h2 | h2
  · rcases mem_fix_iso8859 _ h2 with h3 | h3
    · exact Or.inl (mem_fix_microsoft _ h3)
    · exact Or.inr h3
  · exact Or.inr h2

theorem canon_some {nm : List Nat} {e : String × Nat}
    (h : enc_canon_search nm = some e) :
    e ∈ enc_canon_table ∧ strLit e.1 = nm := by
  refine ⟨List.mem_of_find?_eq_some h, ?_⟩
  have := List.find?_some h
  simpa using this

theorem alias_some {nm : List Nat} {i : Nat} (h : enc_alias_search nm = some i) :
    ∃ a ∈ enc_alias_table, a.2 = i := by
  unfold enc_alias_search at h
  obtain ⟨a, ha, hai⟩ := Option.map_eq_some'.1 h
  exact ⟨a, List.mem_of_find?_eq_some ha, hai⟩

theorem canon_entries_fixed :
    ∀ e ∈ enc_canon_table, strLit e.1 ≠ strLit "default" ∧
      enc_canonize_body (strLit e.1) = strLit e.1 := by decide

theorem alias_targets_fixed :
    ∀ a ∈ enc_alias_table,
      strLit (enc_canon_table.getD a.2 ("", 0)).1 ≠ strLit "default" ∧
      enc_canonize_body (strLit (enc_canon_table.getD a.2 ("", 0)).1)
        = strLit (enc_canon_table.getD a.2 ("", 0)).1 := by decide

theorem bfalse {b : Bool} (h : ¬ b = true) : b = false := by
  cases b
  · rfl
  · exact absurd rfl h

theorem enc_fixes_cp_id (t : List Nat) :
    enc_fixes (strLit "cp" ++ t) = strLit "cp" ++ t := by
  unfold enc_fixes
  rw [fix_microsoft_id (strLit "cp" ++ t) rfl, fix_iso8859_id (strLit "cp" ++ t) rfl,
    fix_isodash_id_nopre (strLit "cp" ++ t) rfl, fix_latin_id (strLit "cp" ++ t) rfl]

theorem enc_fixes_iso_id (u : List Nat) :
    enc_fixes (strLit "iso-8859-" ++ u) = strLit "iso-8859-" ++ u := by
  unfold enc_fixes
  rw [fix_microsoft_id (strLit "iso-8859-" ++ u) rfl,
    fix_iso8859_id (strLit "iso-8859-" ++ u) rfl,
    fix_isodash_id_dash (strLit "iso-8859-" ++ u) rfl,
    fix_latin_id (strLit "iso-8859-" ++ u) rfl]

theorem enc_fixes_latin_id (t : List Nat) (h : isPre (strLit "-") t = false) :
    enc_fixes (strLit "latin" ++ t) = strLit "latin" ++ t := by
  unfold enc_fixes
  rw [fix_microsoft_id (strLit "latin" ++ t) rfl,
    fix_iso8859_id (strLit "latin" ++ t) rfl,
    fix_isodash_id_nopre (strLit "latin" ++ t) rfl,
    fix_latin_id (strLit "latin" ++ t) (show isPre (strLit "latin-") (strLit "latin" ++ t) = false from h)]

theorem enc_fixes_stable (p : List Nat)
    (hlat : isPre (strLit "latin--") p = false) :
    enc_fixes (enc_fixes p) = enc_fixes p ∧
    (enc_fixes p = p ∨ (∃ t, enc_fixes p = strLit "cp" ++ t) ∨
      (∃ u, enc_fixes p = strLit "iso-8859-" ++ u) ∨
      (∃ t, enc_fixes p = strLit "latin" ++ t ∧ isPre (strLit "-") t = false)) := by
  by_cases h0 : isPre (strLit "microsoft-cp") p = true
  · obtain ⟨t, rfl⟩ := (isPre_iff _ _).1 h0
    have hfix : enc_fixes (strLit "microsoft-cp" ++ t) = strLit "cp" ++ t := by
      unfold enc_fixes
      rw [fix_microsoft_app, fix_iso8859_id (strLit "cp" ++ t) rfl,
        fix_isodash_id_nopre (strLit "cp" ++ t) rfl, fix_latin_id (strLit "cp" ++ t) rfl]
    rw [hfix, enc_fixes_cp_id]
    exact ⟨rfl, Or.inr (Or.inl ⟨t, rfl⟩)⟩
  by_cases h1 : isPre (strLit "iso8859") p = true
  · obtain ⟨t, rfl⟩ := (isPre_iff _ _).1 h1
    have hmic : fix_microsoft (strLit "iso8859" ++ t) = strLit "iso8859" ++ t :=
      fix_microsoft_id _ rfl
    cases t with
    | nil =>
      have hfix : enc_fixes (strLit "iso8859" ++ []) = strLit "iso-8859-" ++ [] := by
        unfold enc_fixes
        rw [hmic, fix_iso8859_app, fix_isodash_app [] (by decide),
          fix_latin_id (strLit "iso-8859-" ++ []) (by decide)]
      rw [hfix, enc_fixes_iso_id]
      exact ⟨rfl, Or.inr (Or.inr (Or.inl ⟨[], rfl⟩))⟩
    | cons a t2 =>
      by_cases ha : a = 0x2D
      · subst ha
        have hfix : enc_fixes (strLit "iso8859" ++ 0x2D :: t2)
            = strLit "iso-8859-" ++ t2 := by
          unfold enc_fixes
          rw [hmic, fix_iso8859_app]
          rw [show strLit "iso-8859" ++ 0x2D :: t2 = strLit "iso-8859-" ++ t2 from rfl]
          rw [fix_isodash_id_dash (strLit "iso-8859-" ++ t2) rfl,
            fix_latin_id (strLit "iso-8859-" ++ t2) rfl]
        rw [hfix, enc_fixes_iso_id]
        exact ⟨rfl, Or.inr (Or.inr (Or.inl ⟨t2, rfl⟩))⟩
      · have hfix : enc_fixes (strLit "iso8859" ++ a :: t2)
            = strLit "iso-8859-" ++ a :: t2 := by
          unfold enc_fixes
          rw [hmic, fix_iso8859_app, fix_isodash_app (a :: t2)
              (show (strLit "iso-8859" ++ a :: t2).getD 8 0 ≠ 0x2D from ha),
            fix_latin_id (strLit "iso-8859-" ++ a :: t2) rfl]
        rw [hfix, enc_fixes_iso_id]
        exact ⟨rfl, Or.inr (Or.inr (Or.inl ⟨a :: t2, rfl⟩))⟩
  by_cases h2 : isPre (strLit "iso-8859") p = true
  · obtain ⟨t, rfl⟩ := (isPre_iff _ _).1 h2
    have hmic : fix_microsoft (strLit "iso-8859" ++ t) = strLit "iso-8859" ++ t :=
      fix_microsoft_id _ rfl
    have hiso : fix_iso8859 (strLit "iso-8859" ++ t) = strLit "iso-8859" ++ t :=
      fix_iso8859_id _ rfl
    cases t with
    | nil =>
      have hfix : enc_fixes (strLit "iso-8859" ++ []) = strLit "iso-8859-" ++ [] := by
        unfold enc_fixes
        rw [hmic, hiso, fix_isodash_app [] (by decide),
          fix_latin_id (strLit "iso-8859-" ++ []) (by decide)]
      rw [hfix, enc_fixes_iso_id]
      exact ⟨rfl, Or.inr (Or.inr (Or.inl ⟨[], rfl⟩))⟩
    | cons a t2 =>
      by_cases ha : a = 0x2D
      · subst ha
        have hfix : enc_fixes (strLit "iso-8859" ++ 0x2D :: t2)
            = strLit "iso-8859-" ++ t2 := by
          unfold enc_fixes
          rw [hmic, hiso, fix_isodash_id_dash (strLit "iso-8859" ++ 0x2D :: t2) rfl,
            fix_latin_id (strLit "iso-8859" ++ 0x2D :: t2) rfl]
          rfl
        rw [hfix, enc_fixes_iso_id]
        exact ⟨rfl, Or.inr (Or.inr (Or.inl ⟨t2, rfl⟩))⟩
      · have hfix : enc_fixes (strLit "iso-8859" ++ a :: t2)
            = strLit "iso-8859-" ++ a :: t2 := by
          unfold enc_fixes
          rw [hmic, hiso, fix_isodash_app (a :: t2)
              (show (strLit "iso-8859" ++ a :: t2).getD 8 0 ≠ 0x2D from ha),
            fix_latin_id (strLit "iso-8859-" ++ a :: t2) rfl]
        rw [hfix, enc_fixes_iso_id]
        exact ⟨rfl, Or.inr (Or.inr (Or.inl ⟨a :: t2, rfl⟩))⟩
  by_cases h3 : isPre (strLit "latin-") p = true
  · obtain ⟨t, rfl⟩ := (isPre_iff _ _).1 h3
    have hdash : isPre (strLit "-") t = false := hlat
    have hfix : enc_fixes (strLit "latin-" ++ t) = strLit "latin" ++ t := by
      unfold enc_fixes
      rw [fix_microsoft_id (strLit "latin-" ++ t) rfl,
        fix_iso8859_id (strLit "latin-" ++ t) rfl,
        fix_isodash_id_nopre (strLit "latin-" ++ t) rfl, fix_latin_app]
    rw [hfix, enc_fixes_latin_id _ hdash]
    exact ⟨rfl, Or.inr (Or.inr (Or.inr ⟨t, rfl, hdash⟩))⟩
  · have hfix : enc_fixes p = p := by
      unfold enc_fixes
      rw [fix_microsoft_id p (bfalse h0), fix_iso8859_id p (bfalse h1),
        fix_isodash_id_nopre p (bfalse h2), fix_latin_id p (bfalse h3)]
    rw [hfix, hfix]
    exact ⟨rfl, Or.inl rfl⟩

theorem ne_default_of_head {q : List Nat} {a : Nat} (h : q.getD 0 0 = a)
    (ha : a ≠ 0x64) : q ≠ strLit "default" := by
  intro he
  rw [he] at h
  exact ha (show a = 0x64 from h.symm)

/-- A name of the form `pre ++ q` that is already normalized, whose head is
exactly the skipped part, whose tail is fixed by the spelling fixes and
matches neither table, is a fixed point of `enc_canonize`. -/
theorem canonize_fixed_point_gen (fd y pre q : List Nat)
    (hy : y = pre ++ q)
    (hyd : y ≠ strLit "default")
    (hynorm : norm_name y = y)
    (hpre : enc_pre_len y = pre.length)
    (hfix : enc_fixes q = q)
    (hcs : enc_canon_search q = none)
    (has : enc_alias_search q = none) :
    enc_canonize fd y = y := by
  subst hy
  have hskipy : enc_skip (pre ++ q) = q := by
    unfold enc_skip
    rw [hpre, List.drop_left]
  unfold enc_canonize
  rw [if_neg hyd]
  unfold enc_canonize_body
  rw [hynorm, hskipy, hfix, hcs, has, hpre, List.take_left]

theorem not_true_of_false {b : Bool} (h : b = false) : ¬ b = true := by
  simp [h]

theorem enc_pre_len_cons (a : Nat) (t : List Nat) (h2 : a ≠ 0x32) (h8 : a ≠ 0x38) :
    enc_pre_len (a :: t) = 0 := by
  have e2 : isPre (strLit "2byte-") (a :: t) = false := by
    show (0x32 == a && isPre (strLit "byte-") t) = false
    rw [beq_eq_false_iff_ne.2 (Ne.symm h2)]
    rfl
  have e8 : isPre (strLit "8bit-") (a :: t) = false := by
    show (0x38 == a && isPre (strLit "bit-") t) = false
    rw [beq_eq_false_iff_ne.2 (Ne.symm h8)]
    rfl
  unfold enc_pre_len
  rw [e2, e8]
  rfl

/-- C9 (amended): `enc_canonize` is idempotent on every name other than
"default" that does not normalize to "default" and whose normalized,
head-skipped form does not begin with "latin-" followed by a second dash.
(`fd` is the runtime `fenc_default` value, arbitrary here.) -/
theorem C9_canonize_idempotent (fd x : List Nat)
    (hdef : x ≠ strLit "default")
    (hnorm : norm_name x ≠ strLit "default")
    (hlat : isPre (strLit "latin--") (enc_skip (norm_name x)) = false) :
    enc_canonize fd (enc_canonize fd x) = enc_canonize fd x := by
  have hx : enc_canonize fd x = enc_canonize_body x := by
    unfold enc_canonize
    rw [if_neg hdef]
  rw [hx]
  rcases hcs : enc_canon_search (enc_fixes (enc_skip (norm_name x))) with _ | e
  · rcases has : enc_alias_search (enc_fixes (enc_skip (norm_name x))) with _ | i
    · have hb : enc_canonize_body x
          = (norm_name x).take (enc_pre_len (norm_name x))
            ++ enc_fixes (enc_skip (norm_name x)) := by
        unfold enc_canonize_body
        rw [hcs, has]
      rw [hb]
      obtain ⟨hidem, hshape⟩ := enc_fixes_stable (enc_skip (norm_name x)) hlat
      have hnormfix : ∀ b ∈ (norm_name x).take (enc_pre_len (norm_name x))
          ++ enc_fixes (enc_skip (norm_name x)), norm_char b = b := by
        intro b hb2
        rcases List.mem_append.1 hb2 with h | h
        · exact norm_fixed_of_norm x b (List.mem_of_mem_take h)
        · rcases mem_enc_fixes _ h with h | h
          · have hbm : b ∈ norm_name x := by
              unfold enc_skip at h
              exact List.mem_of_mem_drop h
            exact norm_fixed_of_norm x b hbm
          · subst h
            decide
      have hynorm := norm_name_of_fixed _ hnormfix
      by_cases h2b : isPre (strLit "2byte-") (norm_name x) = true
      · obtain ⟨t, ht⟩ := (isPre_iff _ _).1 h2b
        have hk : enc_pre_len (norm_name x) = 6 := by
          unfold enc_pre_len
          rw [if_pos h2b]
        have hy : (norm_name x).take (enc_pre_len (norm_name x))
            ++ enc_fixes (enc_skip (norm_name x))
            = strLit "2byte-" ++ enc_fixes (enc_skip (norm_name x)) := by
          rw [hk, ht]
          rfl
        rw [hy] at hynorm ⊢
        refine canonize_fixed_point_gen fd _ (strLit "2byte-") _ rfl ?_ hynorm ?_
          hidem hcs has
        · exact ne_default_of_head
            (show (strLit "2byte-" ++ enc_fixes (enc_skip (norm_name x))).getD 0 0
              = 0x32 from rfl) (by decide)
        · show enc_pre_len (strLit "2byte-" ++ enc_fixes (enc_skip (norm_name x)))
            = (strLit "2byte-").length
          unfold enc_pre_len
          rw [if_pos (isPre_append _ _)]
          rfl
      by_cases h8b : isPre (strLit "8bit-") (norm_name x) = true
      · obtain ⟨t, ht⟩ := (isPre_iff _ _).1 h8b
        have hk : enc_pre_len (norm_name x) = 5 := by
          unfold enc_pre_len
          rw [if_neg h2b, if_pos h8b]
        have hy : (norm_name x).take (enc_pre_len (norm_name x))
            ++ enc_fixes (enc_skip (norm_name x))
            = strLit "8bit-" ++ enc_fixes (enc_skip (norm_name x)) := by
          rw [hk, ht]
          rfl
        rw [hy] at hynorm ⊢
        refine canonize_fixed_point_gen fd _ (strLit "8bit-") _ rfl ?_ hynorm ?_
          hidem hcs has
        · exact ne_default_of_head
            (show (strLit "8bit-" ++ enc_fixes (enc_skip (norm_name x))).getD 0 0
              = 0x38 from rfl) (by decide)
        · show enc_pre_len (strLit "8bit-" ++ enc_fixes (enc_skip (norm_name x)))
            = (strLit "8bit-").length
          unfold enc_pre_len
          rw [if_neg (not_true_of_false (show isPre (strLit "2byte-")
              (strLit "8bit-" ++ enc_fixes (enc_skip (norm_name x))) = false from rfl)),
            if_pos (isPre_append _ _)]
          rfl
      · have hk : enc_pre_len (norm_name x) = 0 := by
          unfold enc_pre_len
          rw [if_neg h2b, if_neg h8b]
        have hskip0 : enc_skip (norm_name x) = norm_name x := by
          unfold enc_skip
          rw [hk, List.drop_zero]
        have hy : (norm_name x).take (enc_pre_len (norm_name x))
            ++ enc_fixes (enc_skip (norm_name x))
            = [] ++ enc_fixes (enc_skip (norm_name x)) := by
          rw [hk]
          rfl
        rw [hy] at hynorm ⊢
        rcases hshape with hsh | ⟨t, hsh⟩ | ⟨u, hsh⟩ | ⟨t, hsh, -⟩
        · have hq : enc_fixes (enc_skip (norm_name x)) = norm_name x := by
            rw [hsh, hskip0]
          refine canonize_fixed_point_gen fd _ [] _ rfl ?_ hynorm ?_ hidem hcs has
          · show [] ++ enc_fixes (enc_skip (norm_name x)) ≠ strLit "default"
            rw [List.nil_append, hq]
            exact hnorm
          · show enc_pre_len ([] ++ enc_fixes (enc_skip (norm_name x))) = ([] : List Nat).length
            rw [List.nil_append, hq]
            unfold enc_pre_len
            rw [if_neg h2b, if_neg h8b]
            rfl
        · refine canonize_fixed_point_gen fd _ [] _ rfl ?_ hynorm ?_ hidem hcs has
          · show [] ++ enc_fixes (enc_skip (norm_name x)) ≠ strLit "default"
            rw [List.nil_append, hsh]
            exact ne_default_of_head
              (show (strLit "cp" ++ t).getD 0 0 = 0x63 from rfl) (by decide)
          · show enc_pre_len ([] ++ enc_fixes (enc_skip (norm_name x))) = ([] : List Nat).length
            rw [List.nil_append, hsh]
            exact enc_pre_len_cons 0x63 _ (by decide) (by decide)
        · refine canonize_fixed_point_gen fd _ [] _ rfl ?_ hynorm ?_ hidem hcs has
          · show [] ++ enc_fixes (enc_skip (norm_name x)) ≠ strLit "default"
            rw [List.nil_append, hsh]
            exact ne_default_of_head
              (show (strLit "iso-8859-" ++ u).getD 0 0 = 0x69 from rfl) (by decide)
          · show enc_pre_len ([] ++ enc_fixes (enc_skip (norm_name x))) = ([] : List Nat).length
            rw [List.nil_append, hsh]
            exact enc_pre_len_cons 0x69 _ (by decide) (by decide)
        · refine canonize_fixed_point_gen fd _ [] _ rfl ?_ hynorm ?_ hidem hcs has
          · show [] ++ enc_fixes (enc_skip (norm_name x)) ≠ strLit "default"
            rw [List.nil_append, hsh]
            exact ne_default_of_head
              (show (strLit "latin" ++ t).getD 0 0 = 0x6C from rfl) (by decide)
          · show enc_pre_len ([] ++ enc_fixes (enc_skip (norm_name x))) = ([] : List Nat).length
            rw [List.nil_append, hsh]
            exact enc_pre_len_cons 0x6C _ (by decide) (by decide)
    · have hb : enc_canonize_body x = strLit (enc_canon_table.getD i ("", 0)).1 := by
        unfold enc_canonize_body
        rw [hcs, has]
      obtain ⟨a, hmem, hai⟩ := alias_some has
      subst hai
      rw [hb]
      have hfixy := alias_targets_fixed a hmem
      unfold enc_canonize
      rw [if_neg hfixy.1, hfixy.2]
  · have hb : enc_canonize_body x = enc_fixes (enc_skip (norm_name x)) := by
      unfold enc_canonize_body
      rw [hcs]
    obtain ⟨hmem, hname⟩ := canon_some hcs
    rw [hb, ← hname]
    have hfixy := canon_entries_fixed e hmem
    unfold enc_canonize
    rw [if_neg hfixy.1, hfixy.2]

/-- C9 counterexample: "latin--1" canonizes to "latin-1", but canonizing
again gives "latin1" — the latin-N fix deletes one dash per call, so the
claimed idempotence fails. -/
theorem C9_counterexample :
    enc_canonize [] (strLit "latin--1") = strLit "latin-1" ∧
    enc_canonize [] (enc_canonize [] (strLit "latin--1")) = strLit "latin1" ∧
    enc_canonize [] (enc_canonize [] (strLit "latin--1"))
      ≠ enc_canonize [] (strLit "latin--1") := by decide

/-- C9 witness: the amended idempotence at the input "UTF8". -/
theorem C9_witness :
    enc_canonize [] (enc_canonize [] (strLit "UTF8"))
      = enc_canonize [] (strLit "UTF8") :=
  C9_canonize_idempotent [] (strLit "UTF8") (by decide) (by decide) (by decide)
